import Mathlib

/-!
Verification of the acode-treesitter plugin (manager.js, language.js, api.js)
against its natural-language specification.

Modelling conventions:
* Filesystem paths are modelled as segment lists (`List String`); the host's
  `Url.join(a, b)` with a single-segment `b` corresponds to appending one
  segment.  The storage root `DATA_STORAGE` is abstracted away, so the
  tree-sitter base path `TREE_SITTER_PATH` is the one-segment path
  `["tree-sitter"]`.
* The filesystem is an association list from path to entry (directory or
  file-with-content); `fs(p).exists()`, `createDirectory`, `createFile`,
  `delete()` (recursive) and `lsDir()` are modelled as pure state transforms.
* JavaScript values that flow through the Language class (config objects,
  wasm maps, ArrayBuffers, URL strings) are modelled by the inductive `JSVal`.
* Asynchronous functions are modelled as pure functions from an explicit
  pre-state (plus a fault-injection oracle for network/filesystem failures)
  to a result and post-state; a rejected promise is an `Except.error`.
* Network activity is reported as an explicit event trace so that claims of
  the form "no network request is issued" are expressible.
-/

set_option autoImplicit false

namespace TreeSitter

/-! ## Character-level string helpers (kernel-friendly) -/

/-- Boolean test that `p` is a prefix of `s`, on character lists. -/
def startsAux : List Char → List Char → Bool
  | _, [] => true
  | [], _ :: _ => false
  | c :: cs, d :: ds => c = d && startsAux cs ds

/-- Models JavaScript `s.startsWith(p)`. -/
def strStarts (s p : String) : Bool := startsAux s.data p.data

/-- Models JavaScript `s.endsWith(p)`. -/
def strEnds (s p : String) : Bool := startsAux s.data.reverse p.data.reverse

/-- Models JavaScript `s.slice(n)` / `substring(n)` for ASCII data. -/
def strDrop (s : String) (n : Nat) : String := String.mk (s.data.drop n)

/-- Models JavaScript `s.slice(0, s.length - n)` for ASCII data. -/
def strDropRight (s : String) (n : Nat) : String :=
  String.mk (s.data.take (s.data.length - n))

/-- Models `Url.basename`: the part of a path after the last separator. -/
def basename (s : String) : String :=
  String.mk ((s.data.reverse.takeWhile (fun c => c ≠ '/')).reverse)

/-! ## Pattern matcher

`manager.js` filters manifest entries with
`isDirectory ? path.startsWith(pattern) : minimatch(path, pattern)`.

`minimatch` is an external npm dependency (the spec, section 4.1, treats it as
"standard single-segment glob semantics: `*` does not cross path separators";
literal characters match themselves, so a pattern without glob characters is
an equality test).  `globMatch` below is modelled from that specification for
the literal-and-`*` pattern language, which covers every pattern the installer
uses (`tree-sitter.json`, `*.wasm`, `queries/`). -/

/-- Fuel-indexed worker for `globMatch`.  Every recursive call strictly
decreases `pattern.length + input.length`, so fuel
`pattern.length + input.length + 1` can never run out; the fuel only makes
the recursion structural so that the kernel can evaluate it. -/
def globMatchAux : Nat → List Char → List Char → Bool
  | 0, _, _ => false
  | _ + 1, [], [] => true
  | _ + 1, [], _ :: _ => false
  | f + 1, '*' :: ps, [] => globMatchAux f ps []
  | f + 1, '*' :: ps, c :: cs =>
    if c = '/' then globMatchAux f ps (c :: cs)
    else globMatchAux f ps (c :: cs) || globMatchAux f ('*' :: ps) cs
  | _ + 1, _ :: _, [] => false
  | f + 1, p :: ps, c :: cs => p = c && globMatchAux f ps cs

/-- Modelled from the spec: single-segment glob matching as provided by the
external `minimatch` library for patterns built from literal characters and
`*`; `*` matches any (possibly empty) run of non-separator characters. -/
def globMatch (pattern input : List Char) : Bool :=
  globMatchAux (pattern.length + input.length + 1) pattern input

/-- The installer's per-file pattern test (manager.js `_download`, the
`matchingFiles` filter): a pattern with a trailing separator is a raw
`startsWith` prefix test on the relative path; any other pattern goes through
the glob matcher. -/
def patMatches (path pattern : String) : Bool :=
  if strEnds pattern "/" then strStarts path pattern
  else globMatch pattern.data path.data

/-! ## Filesystem model

Paths are segment lists.  `Url.join` with single-segment names corresponds
to appending segments.  `TREE_SITTER_PATH` is `["tree-sitter"]` (storage root
abstracted), so the package directory for identifier `lang` is
`["tree-sitter", lang]`. -/

inductive FSEntry where
  | dir : FSEntry
  | file (content : String) : FSEntry
  deriving DecidableEq

/-- The filesystem: an association list from absolute path to entry. -/
abbrev FS := List (List String × FSEntry)

def FSEntry.isDir : FSEntry → Bool
  | .dir => true
  | .file _ => false

/-- Models `fs(p).exists()`. -/
def fsExists (fs : FS) (p : List String) : Bool := fs.any (fun q => q.1 = p)

/-- Insert or overwrite one path. -/
def upsertFS (fs : FS) (p : List String) (e : FSEntry) : FS :=
  if fsExists fs p then fs.map (fun q => if q.1 = p then (p, e) else q)
  else fs ++ [(p, e)]

/-- Models `fs(parent).createDirectory(name)` in the install flow (the
directory is fresh there; creation of an already-present path is a no-op). -/
def createDirAt (fs : FS) (p : List String) : FS :=
  if fsExists fs p then fs else fs ++ [(p, .dir)]

/-- Models `fs(folder).createFile(name, content)`. -/
def createFileAt (fs : FS) (folder : List String) (name content : String) : FS :=
  upsertFS fs (folder ++ [name]) (.file content)

/-- Boolean test that path `p` is a (non-strict) ancestor-or-equal of `q`. -/
def segPre : List String → List String → Bool
  | [], _ => true
  | _ :: _, [] => false
  | a :: p, b :: q => a = b && segPre p q

/-- Models `fs(p).delete()`: recursively removes the entry at `p` and every
entry below it. -/
def deleteTree (fs : FS) (p : List String) : FS :=
  fs.filter (fun q => ¬ segPre p q.1)

/-- Remainder of `q` after stripping the segment sequence `p`. -/
def dropPre : List String → List String → Option (List String)
  | [], q => some q
  | _ :: _, [] => none
  | a :: p, b :: q => if a = b then dropPre p q else none

/-- One entry of an `lsDir` listing: `{name, url, isDirectory}`. -/
structure DirEnt where
  name : String
  url : List String
  isDirectory : Bool
  deriving DecidableEq

/-- Models `fs(p).lsDir()`: the immediate children of directory `p`. -/
def lsDir (fs : FS) (p : List String) : List DirEnt :=
  fs.filterMap fun q =>
    match dropPre p q.1 with
    | some [n] => some ⟨n, q.1, q.2.isDir⟩
    | _ => none

/-- Models `fs(p).readFile(...)` for a path produced by `lsDir` (total in the
model; absent paths read as the empty string). -/
def readFile (fs : FS) (p : List String) : String :=
  match fs.find? (fun q => q.1 = p) with
  | some (_, .file c) => c
  | _ => ""

/-- `Url.join(Api.TREE_SITTER_PATH, lang)`: the package directory path. -/
def langPathOf (lang : String) : List String := ["tree-sitter", lang]

/-- manager.js `isLanguageAvailable`: a bare existence check on the package
directory. -/
def isLanguageAvailable (fs : FS) (lang : String) : Bool :=
  fsExists fs (langPathOf lang)

/-! ## JavaScript values and the Language class (language.js) -/

/-- JavaScript values flowing through the Language class: `null`/`undefined`,
strings (URLs, text), ArrayBuffers (tagged by the identity of their bytes),
and plain objects used as filename-keyed maps. -/
inductive JSVal where
  | null : JSVal
  | str (s : String) : JSVal
  | arrayBuffer (tag : String) : JSVal
  | obj (entries : List (String × JSVal)) : JSVal

/-- JavaScript falsiness for the values above (`!v`). -/
def jsFalsy : JSVal → Bool
  | .null => true
  | .str s => s = ""
  | .arrayBuffer _ => false
  | .obj _ => false

/-- language.js `_toArrayBuffer(v)`: an ArrayBuffer passes through unchanged;
any other value is coerced via `new Uint8Array(v).buffer`, which for the
non-array-like values of this model (plain objects, non-numeric strings such
as file URLs, null) yields an empty buffer. -/
def toArrayBuffer : JSVal → JSVal
  | .arrayBuffer t => .arrayBuffer t
  | _ => .arrayBuffer ""

/-- A compiled grammar as produced by the parsing engine's loader
(`Parser.Language.load`); abstract, tagged by the loaded buffer. -/
inductive Grammar where
  | loaded (buf : JSVal) : Grammar

/-- In-memory Language handle: name, config, wasm slot, queries
(filename-to-content), lazily loaded grammar, and the extensions mapping
(`none` is the JavaScript `null` sentinel marking an extension handle). -/
inductive Language where
  | mk (name : String) (config : JSVal) (wasm : JSVal)
      (queries : List (String × String)) (grammar : Option Grammar)
      (extensions : Option (List (String × Language))) : Language

def Language.name : Language → String
  | .mk n _ _ _ _ _ => n

def Language.config : Language → JSVal
  | .mk _ c _ _ _ _ => c

def Language.wasm : Language → JSVal
  | .mk _ _ w _ _ _ => w

def Language.queries : Language → List (String × String)
  | .mk _ _ _ q _ _ => q

def Language.grammar : Language → Option Grammar
  | .mk _ _ _ _ g _ => g

def Language.extensions : Language → Option (List (String × Language))
  | .mk _ _ _ _ _ e => e

def Language.setGrammar : Language → Option Grammar → Language
  | .mk n c w q _ e, g => .mk n c w q g e

/-- language.js `#getNameFromFilename`: strip a final `.wasm` extension,
then a literal `tree-sitter-` prefix when present. -/
def getNameFromFilename (filename : String) : String :=
  let nameWithoutExt :=
    if strEnds filename ".wasm" then strDropRight filename 5 else filename
  if strStarts nameWithoutExt "tree-sitter-" then strDrop nameWithoutExt 12
  else nameWithoutExt

/-- JavaScript property read `o[k]` on a filename-keyed object. -/
def jsGet (entries : List (String × JSVal)) (k : String) : JSVal :=
  match entries.find? (fun e => e.1 = k) with
  | some e => e.2
  | none => .null

/-- JavaScript property write `o[k] = v`: overwrite in place when the key is
present, append otherwise. -/
def jsSetExt (acc : List (String × Language)) (k : String) (v : Language) :
    List (String × Language) :=
  if acc.any (fun e => e.1 = k) then
    acc.map (fun e => if e.1 = k then (k, v) else e)
  else acc ++ [(k, v)]

/-- One step of the `#initializeExtensions` loop body: skip the main module,
turn any other module into a nested extension handle (constructed with
`isExtension = true`, hence extensions `null` and no further scan). -/
def extStep (config : JSVal) (queries : List (String × String))
    (mainFile : Option String) (acc : List (String × Language))
    (e : String × JSVal) : List (String × Language) :=
  if some e.1 = mainFile then acc
  else
    jsSetExt acc (getNameFromFilename e.1)
      (.mk (getNameFromFilename e.1) config (toArrayBuffer e.2) queries
        none none)

/-- language.js constructor.  With `isExtension = true` the extensions field
is the `null` sentinel and no extension scan runs; otherwise
`#initializeExtensions` finds the main module (first module whose derived
name equals the handle's own name), rebinds the wasm slot to that module's
content (via `_toArrayBuffer`), and turns every other module into a nested
extension handle constructed with `isExtension = true`. -/
def Language.make (name : String) (config : JSVal) (wasm : JSVal)
    (queries : List (String × String)) (isExtension : Bool) : Language :=
  if isExtension then .mk name config wasm queries none none
  else
    let entries := match wasm with
      | .obj es => es
      | _ => []
    let mainFile :=
      (entries.find? (fun e => getNameFromFilename e.1 = name)).map (fun e => e.1)
    let wasmSlot := match mainFile with
      | some fn => toArrayBuffer (jsGet entries fn)
      | none => wasm
    let exts := entries.foldl (extStep config queries mainFile) []
    .mk name config wasmSlot queries none (some exts)

/-- language.js `loadGrammar`, parameterized by the external engine loader.
Returns the result, the post-state of the handle, and whether the loader was
invoked. -/
def loadGrammar (loader : JSVal → Except String Grammar) (l : Language) :
    Except String Grammar × Language × Bool :=
  match l.grammar with
  | some g => (.ok g, l, false)
  | none =>
    if jsFalsy l.wasm then
      (.error ("No WASM file available for language " ++ l.name), l, false)
    else
      match loader (toArrayBuffer l.wasm) with
      | .ok g => (.ok g, l.setGrammar (some g), true)
      | .error e =>
        (.error ("Failed to load grammar for language " ++ l.name ++ ": " ++ e),
          l, false)

/-- language.js `unloadGrammar`: clear the grammar slot, return `true`. -/
def unloadGrammar (l : Language) : Language × Bool :=
  (l.setGrammar none, true)

/-! ## Manager (manager.js) -/

/-- The registry manifest (`?meta` response after JSON parsing): a path
shared-prefix to strip, a resolved version, and the flat file list. -/
structure PkgMeta where
  pfx : String
  version : String
  files : List String
  deriving DecidableEq

/-- Fault-injection oracle for one install operation: `meta = none` models a
failed manifest fetch (non-success status, unparsable body, or missing
`files`); `failFiles` are the manifest paths whose per-file download fails
(timeout, empty payload, or read error). -/
structure Faults where
  meta : Option PkgMeta
  failFiles : List String
  deriving DecidableEq

/-- Network requests issued by the installer. -/
inductive NetEvent where
  | metaFetch (lang : String) : NetEvent
  | fileFetch (path : String) : NetEvent
  deriving DecidableEq

/-- Sequential per-file download loop inside one item of `_download`
(`for (const file of matchingFiles) await this._downloadFile(...)`): each
file is fetched, then written under the destination folder as its base name;
a failure aborts the loop. -/
def runFiles (fs : FS) (failFiles : List String) (dest : List String) :
    List String → Option String × FS × List NetEvent
  | [] => (none, fs, [])
  | p :: ps =>
    if failFiles.contains p then
      (some ("Failed to download " ++ p), fs, [.fileFetch p])
    else
      let fs1 := createFileAt fs dest (basename p) ("content:" ++ p)
      let r := runFiles fs1 failFiles dest ps
      (r.1, r.2.1, .fileFetch p :: r.2.2)

/-- One item of `_download`: a directory pattern first creates the
destination subdirectory and redirects downloads under it; the manifest is
filtered by the pattern test on prefix-stripped paths; matching files are
downloaded sequentially. -/
def runItem (fs : FS) (f : Faults) (m : PkgMeta) (lp : List String)
    (pat : String) : Option String × FS × List NetEvent :=
  let isDirectory := strEnds pat "/"
  let fs1 := if isDirectory then createDirAt fs (lp ++ [strDropRight pat 1]) else fs
  let dest := if isDirectory then lp ++ [strDropRight pat 1] else lp
  let matching := m.files.filter (fun p => patMatches (strDrop p m.pfx.length) pat)
  runFiles fs1 f.failFiles dest matching

/-- The item loop of `_download`, in declaration order; a failing item aborts
the remaining ones. -/
def runItems (fs : FS) (f : Faults) (m : PkgMeta) (lp : List String) :
    List String → Option String × FS × List NetEvent
  | [] => (none, fs, [])
  | pat :: pats =>
    match runItem fs f m lp pat with
    | (some e, fs1, evs) => (some e, fs1, evs)
    | (none, fs1, evs) =>
      match runItems fs1 f m lp pats with
      | (r2, fs2, evs2) => (r2, fs2, evs ++ evs2)

/-- manager.js `_download`: fetch the manifest once, then process the three
declared items against that single snapshot. -/
def managerDownload (fs : FS) (lang : String) (f : Faults) :
    Option String × FS × List NetEvent :=
  match f.meta with
  | none => (some "failed while fetch metadata", fs, [.metaFetch lang])
  | some m =>
    let r := runItems fs f m (langPathOf lang)
      ["tree-sitter.json", "*.wasm", "queries/"]
    (r.1, r.2.1, .metaFetch lang :: r.2.2)

/-- The tail of manager.js `installLanguage` after the directory was
created: a successful `_download` returns `true`; the catch block deletes
the package directory when it exists and propagates the error. -/
def installFinish (lp : List String) (r : Option String × FS × List NetEvent) :
    Except String Bool × FS × List NetEvent :=
  match r.1 with
  | none => (.ok true, r.2.1, r.2.2)
  | some e =>
    (.error e, if fsExists r.2.1 lp then deleteTree r.2.1 lp else r.2.1, r.2.2)

/-- manager.js `installLanguage`: return `false` when the package directory
already exists; otherwise create it, run `_download`, and on any failure
delete the package directory (when it exists) before propagating the error. -/
def installLanguage (fs : FS) (lang : String) (f : Faults) :
    Except String Bool × FS × List NetEvent :=
  if fsExists fs (langPathOf lang) then (.ok false, fs, [])
  else
    installFinish (langPathOf lang)
      (managerDownload (createDirAt fs (langPathOf lang)) lang f)

/-- JavaScript error values surfaced by the facade and the manager. -/
inductive JsErr where
  /-- The `ReferenceError` raised by manager.js `uninstallLanguage`'s catch
  block, whose binder is `e` but whose body reads the undefined name
  `error`. -/
  | referenceError : JsErr
  /-- The `TypeError` raised when destructuring `undefined`. -/
  | typeError (msg : String) : JsErr
  /-- An ordinary `Error` with a message. -/
  | error (msg : String) : JsErr
  deriving DecidableEq

/-- manager.js `uninstallLanguage`, with a fault flag for the directory
deletion.  When deletion fails, the catch block itself throws a
`ReferenceError` (it reads `error.message`, but the caught exception is bound
to `e`), so an error — though not the original one — propagates. -/
def uninstallLanguage (fs : FS) (lang : String) (deleteFails : Bool) :
    Except JsErr Bool × FS :=
  let lp := langPathOf lang
  if ¬ fsExists fs lp then (.ok false, fs)
  else if deleteFails then (.error .referenceError, fs)
  else (.ok true, deleteTree fs lp)

/-- manager.js `getLanguage`: `undefined` (modelled `none`) when the package
directory is absent; an error when `tree-sitter.json` is missing; otherwise a
Language handle built from the config document, the `.wasm` directory
entries (name-to-URL map), and the `queries` subdirectory contents. -/
def managerGetLanguage (fs : FS) (lang : String) :
    Except String (Option Language) :=
  let lp := langPathOf lang
  if ¬ fsExists fs lp then .ok none
  else
    let files := lsDir fs lp
    match files.find? (fun fl => fl.name = "tree-sitter.json") with
    | none =>
      .error ("Failed to load language " ++ lang ++
        ": Missing tree-sitter.json for language " ++ lang)
    | some cf =>
      let config := JSVal.str (readFile fs cf.url)
      let wasmFiles := (files.filter (fun fl => strEnds fl.name ".wasm")).foldl
        (fun acc fl =>
          if acc.any (fun e => e.1 = fl.name) then
            acc.map (fun e =>
              if e.1 = fl.name then (fl.name, JSVal.str (String.intercalate "/" fl.url))
              else e)
          else acc ++ [(fl.name, JSVal.str (String.intercalate "/" fl.url))])
        []
      let queriesDir := files.find? (fun fl => fl.name = "queries" && fl.isDirectory)
      let queries := match queriesDir with
        | some qd =>
          (lsDir fs qd.url).filterMap (fun fl =>
            if ¬ fl.isDirectory ∧ strEnds fl.name ".scm" then
              some (fl.name, readFile fs fl.url)
            else none)
        | none => []
      .ok (some (Language.make lang config (.obj wasmFiles) queries false))

/-! ## Facade (api.js TreeSitterAPI) -/

/-- A parser instance bound to exactly one compiled grammar
(`new Parser(); parser.setLanguage(grammar)`). -/
inductive Parser where
  | mk (g : Grammar) : Parser

/-- The facade's handle cache `#languages`. -/
abbrev LangCache := List (String × Language)

/-- api.js `getLanguage` (with `forceReload` option): throw on an empty
identifier, serve the cache unless `forceReload`, otherwise delegate to the
manager, caching a successful construction; a manager error is caught and
surfaced as `null`. -/
def apiGetLanguage (langs : LangCache) (fs : FS) (lang : String)
    (forceReload : Bool) : Except JsErr (Option Language) × LangCache :=
  if lang = "" then (.error (.error "Language identifier is required"), langs)
  else
    match (if forceReload then none else (langs.find? (fun e => e.1 = lang))) with
    | some e => (.ok (some e.2), langs)
    | none =>
      match managerGetLanguage fs lang with
      | .ok none => (.ok none, langs)
      | .ok (some l) =>
        let langs2 := if langs.any (fun e => e.1 = lang) then
            langs.map (fun e => if e.1 = lang then (lang, l) else e)
          else langs ++ [(lang, l)]
        (.ok (some l), langs2)
      | .error _ => (.ok none, langs)

/-- api.js `createParser`: resolve the handle; throw when the handle is
absent or its grammar slot is not already loaded; otherwise bind a fresh
parser instance to the loaded grammar. -/
def createParser (langs : LangCache) (fs : FS) (lang : String) :
    Except JsErr Parser × LangCache :=
  match apiGetLanguage langs fs lang false with
  | (.error e, c) => (.error e, c)
  | (.ok none, c) =>
    (.error (.error ("Cannot create parser: Language " ++ lang ++
      " not available or grammar not loaded")), c)
  | (.ok (some l), c) =>
    match l.grammar with
    | none =>
      (.error (.error ("Cannot create parser: Language " ++ lang ++
        " not available or grammar not loaded")), c)
    | some g => (.ok (.mk g), c)

/-- api.js `installLanguage`: delegate to the manager, rethrow errors, and
return `true` whenever the manager call does not throw — including when the
manager returned `false` for an already-installed identifier. -/
def apiInstallLanguage (fs : FS) (lang : String) (f : Faults) :
    Except String Bool × FS × List NetEvent :=
  let r := installLanguage fs lang f
  match r.1 with
  | .ok _ => (.ok true, r.2.1, r.2.2)
  | .error e => (.error e, r.2.1, r.2.2)

/-- api.js `uninstallLanguage`: evict the handle cache entry, delegate to the
manager, and catch any error, returning `false` instead of propagating it. -/
def apiUninstallLanguage (langs : LangCache) (fs : FS) (lang : String)
    (deleteFails : Bool) : Except JsErr Bool × LangCache × FS :=
  let langs2 := langs.filter (fun e => ¬ e.1 = lang)
  let r := uninstallLanguage fs lang deleteFails
  match r.1 with
  | .ok b => (.ok b, langs2, r.2)
  | .error _ => (.ok false, langs2, r.2)

/-- The options object of api.js `parse`; the `forceReload` property may be
absent. -/
structure ParseOpts where
  forceReload : Option Bool
  deriving DecidableEq

/-- A parse result: the syntax tree produced by one parser over one input. -/
inductive ParseTree where
  | parsed (g : Grammar) (code : String) : ParseTree

/-- Observable steps of one `parse` call, in order. -/
inductive ParseEv where
  /-- The `await this.waitForInit()` at the top of the body. -/
  | initWait : ParseEv
  /-- Reuse of the cached parser for the identifier. -/
  | cachedParse : ParseEv
  /-- Construction of a new parser via `createParser`. -/
  | freshParse : ParseEv
  deriving DecidableEq

/-- api.js `parse(lang, code, { forceReload = false })`.  The third
parameter is destructured with no default object: a call without it
destructures `undefined` and throws a `TypeError` at invocation, before the
body (and hence before `waitForInit`, any parser lookup, or any parsing)
runs.  With an options object, the cached parser is reused unless
`forceReload`; otherwise a new parser is created, cached, and used. -/
def apiParse (langs : LangCache) (parsers : List (String × Parser)) (fs : FS)
    (lang code : String) (opts : Option ParseOpts) :
    Except JsErr ParseTree × List (String × Parser) × List ParseEv :=
  match opts with
  | none =>
    (.error (.typeError "Cannot destructure property forceReload of undefined"),
      parsers, [])
  | some o =>
    let forceReload := o.forceReload.getD false
    match (if forceReload then none else parsers.find? (fun e => e.1 = lang)) with
    | some e =>
      match e.2 with
      | .mk g => (.ok (.parsed g code), parsers, [.initWait, .cachedParse])
    | none =>
      match (createParser langs fs lang).1 with
      | .error e => (.error e, parsers, [.initWait, .freshParse])
      | .ok p =>
        let parsers2 := if parsers.any (fun e => e.1 = lang) then
            parsers.map (fun e => if e.1 = lang then (lang, p) else e)
          else parsers ++ [(lang, p)]
        match p with
        | .mk g => (.ok (.parsed g code), parsers2, [.initWait, .freshParse])

/-- Boolean discriminator for `Except` errors. -/
def exceptIsError {α β : Type} : Except α β → Bool
  | .error _ => true
  | .ok _ => false

/-- Boolean discriminator: a successfully constructed (non-null) language. -/
def isOkSomeLang : Except String (Option Language) → Bool
  | .ok (some _) => true
  | _ => false

end TreeSitter

open TreeSitter

/-! ## Helper lemmas -/

theorem strData_append (x y : String) : (x ++ y).data = x.data ++ y.data := by
  cases x; cases y; rfl

theorem startsAux_append (a b : List Char) : startsAux (a ++ b) a = true := by
  induction a with
  | nil => cases b <;> rfl
  | cons c cs ih => simp [startsAux, ih]

theorem strEnds_append (x y : String) : strEnds (x ++ y) y = true := by
  unfold strEnds
  rw [strData_append, List.reverse_append]
  exact startsAux_append _ _

theorem strmk_data (s : String) : String.mk s.data = s := rfl

theorem getName_canonical (s : String) :
    getNameFromFilename ("tree-sitter-" ++ s ++ ".wasm") = s := by
  have hA : ("tree-sitter-" ++ s ++ ".wasm").data
      = ("tree-sitter-" ++ s).data ++ ".wasm".data := strData_append _ _
  have hB : ("tree-sitter-" ++ s).data = "tree-sitter-".data ++ s.data :=
    strData_append _ _
  have hEnds : strEnds ("tree-sitter-" ++ s ++ ".wasm") ".wasm" = true :=
    strEnds_append _ _
  have hDR : strDropRight ("tree-sitter-" ++ s ++ ".wasm") 5 = "tree-sitter-" ++ s := by
    unfold strDropRight
    rw [hA]
    have hlen : (("tree-sitter-" ++ s).data ++ ".wasm".data).length
        = ("tree-sitter-" ++ s).data.length + 5 := by
      simp [List.length_append]
    rw [hlen]
    have h5 : ("tree-sitter-" ++ s).data.length + 5 - 5
        = ("tree-sitter-" ++ s).data.length := by omega
    rw [h5, List.take_left]
  have hStarts : strStarts ("tree-sitter-" ++ s) "tree-sitter-" = true := by
    unfold strStarts
    rw [hB]
    exact startsAux_append _ _
  have hDrop : strDrop ("tree-sitter-" ++ s) 12 = s := by
    unfold strDrop
    rw [hB]
    have h12 : (12 : Nat) = "tree-sitter-".data.length := rfl
    rw [h12, List.drop_left]
  unfold getNameFromFilename
  rw [hEnds]
  simp only [if_true]
  rw [hDR, hStarts]
  simp only [if_true]
  exact hDrop

theorem find?_key_of_find?_name (entries : List (String × JSVal))
    (name fn : String) (v : JSVal)
    (h : entries.find? (fun e => getNameFromFilename e.1 = name) = some (fn, v)) :
    entries.find? (fun e => e.1 = fn) = some (fn, v) := by
  induction entries with
  | nil => simp at h
  | cons hd tl ih =>
    by_cases h1 : getNameFromFilename hd.1 = name
    · rw [List.find?_cons_of_pos _ (by simpa using h1)] at h
      have hhd : hd = (fn, v) := by injection h
      subst hhd
      rw [List.find?_cons_of_pos _ (by simp)]
    · rw [List.find?_cons_of_neg _ (by simpa using h1)] at h
      have h2 := ih h
      have h3 := List.find?_some h
      simp only [decide_eq_true_eq] at h3
      have hne : ¬ (hd.1 = fn) := by
        intro he
        exact h1 (by rw [he]; exact h3)
      rw [List.find?_cons_of_neg _ (by simpa using hne)]
      exact h2

theorem make_wasm_slot (name : String) (cfg : JSVal)
    (entries : List (String × JSVal)) (qs : List (String × String))
    (fn : String) (v : JSVal)
    (h : entries.find? (fun e => getNameFromFilename e.1 = name) = some (fn, v)) :
    (Language.make name cfg (.obj entries) qs false).wasm = toArrayBuffer v := by
  have hk := find?_key_of_find?_name entries name fn v h
  simp [Language.make, Language.wasm, jsGet, h, hk]

theorem jsSetExt_ext_none {acc : List (String × Language)} {k : String}
    {v : Language} (hacc : ∀ ke ∈ acc, ke.2.extensions = none)
    (hv : v.extensions = none) :
    ∀ ke ∈ jsSetExt acc k v, ke.2.extensions = none := by
  intro ke hke
  unfold jsSetExt at hke
  split at hke
  · obtain ⟨a, ha, hmap⟩ := List.mem_map.mp hke
    by_cases h1 : a.1 = k
    · simp only [h1, if_true] at hmap
      rw [← hmap]
      exact hv
    · simp only [h1, if_false] at hmap
      rw [← hmap]
      exact hacc a ha
  · rcases List.mem_append.mp hke with hm | hm
    · exact hacc ke hm
    · simp only [List.mem_singleton] at hm
      rw [hm]
      exact hv

theorem foldl_extStep_none (cfg : JSVal) (qs : List (String × String))
    (mf : Option String) (entries : List (String × JSVal)) :
    ∀ (acc : List (String × Language)),
      (∀ ke ∈ acc, ke.2.extensions = none) →
      ∀ ke ∈ entries.foldl (extStep cfg qs mf) acc, ke.2.extensions = none := by
  induction entries with
  | nil => intro acc hacc ke hke; exact hacc ke hke
  | cons e tl ih =>
    intro acc hacc ke hke
    rw [List.foldl_cons] at hke
    refine ih (extStep cfg qs mf acc e) ?_ ke hke
    unfold extStep
    split
    · exact hacc
    · exact jsSetExt_ext_none hacc rfl

theorem make_extensions_are_leaves (name : String) (cfg : JSVal)
    (entries : List (String × JSVal)) (qs : List (String × String))
    (exts : List (String × Language))
    (h : (Language.make name cfg (.obj entries) qs false).extensions = some exts) :
    ∀ k e, (k, e) ∈ exts → e.extensions = none := by
  intro k e hke
  simp only [Language.make, Language.extensions, Bool.false_eq_true, if_false] at h
  have hx := Option.some.inj h
  rw [← hx] at hke
  exact foldl_extStep_none cfg qs _ entries [] (by intro ke hk; simp at hk) (k, e) hke

/-! ## Claim theorems -/

theorem fsExists_upsertFS {fs : FS} {p : List String} (q : List String)
    (e : FSEntry) (h : fsExists fs p = true) :
    fsExists (upsertFS fs q e) p = true := by
  unfold upsertFS
  split
  · obtain ⟨x, hx, hx1⟩ := List.any_eq_true.mp h
    rw [decide_eq_true_eq] at hx1
    refine List.any_eq_true.mpr ⟨if x.1 = q then (q, e) else x, List.mem_map.mpr ⟨x, hx, rfl⟩, ?_⟩
    by_cases hq : x.1 = q
    · simp only [if_pos hq]
      rw [decide_eq_true_eq, ← hq]
      exact hx1
    · simp only [if_neg hq]
      rw [decide_eq_true_eq]
      exact hx1
  · unfold fsExists at h ⊢
    rw [List.any_append, h, Bool.true_or]

theorem fsExists_createDirAt {fs : FS} {p : List String} (q : List String)
    (h : fsExists fs p = true) : fsExists (createDirAt fs q) p = true := by
  unfold createDirAt
  split
  · exact h
  · unfold fsExists at h ⊢
    rw [List.any_append, h, Bool.true_or]

theorem fsExists_createDirAt_self (fs : FS) (p : List String) :
    fsExists (createDirAt fs p) p = true := by
  unfold createDirAt
  split
  · assumption
  · unfold fsExists
    rw [List.any_append, Bool.or_eq_true]
    exact Or.inr (by simp)

theorem fsExists_runFiles (ff dest : List String) (ps : List String) :
    ∀ (fs : FS) (p : List String), fsExists fs p = true →
      fsExists (runFiles fs ff dest ps).2.1 p = true := by
  induction ps with
  | nil => intro fs p h; exact h
  | cons q ps ih =>
    intro fs p h
    unfold runFiles
    split
    · exact h
    · exact ih _ _ (fsExists_upsertFS _ _ h)

theorem fsExists_runItem (f : Faults) (m : PkgMeta) (lp : List String)
    (pat : String) (fs : FS) (p : List String) (h : fsExists fs p = true) :
    fsExists (runItem fs f m lp pat).2.1 p = true := by
  unfold runItem
  apply fsExists_runFiles
  split
  · exact fsExists_createDirAt _ h
  · exact h

theorem fsExists_runItems (f : Faults) (m : PkgMeta) (lp : List String)
    (pats : List String) :
    ∀ (fs : FS) (p : List String), fsExists fs p = true →
      fsExists (runItems fs f m lp pats).2.1 p = true := by
  induction pats with
  | nil => intro fs p h; exact h
  | cons pat pats ih =>
    intro fs p h
    rw [runItems]
    split
    · rename_i e fs1 evs heq
      have h1 := fsExists_runItem f m lp pat fs p h
      rw [heq] at h1
      exact h1
    · rename_i fs1 evs heq
      have h1 := fsExists_runItem f m lp pat fs p h
      rw [heq] at h1
      split
      · rename_i r2 fs2 evs2 heq2
        have h2 := ih fs1 p h1
        rw [heq2] at h2
        exact h2

theorem fsExists_managerDownload (lang : String) (f : Faults) (fs : FS)
    (p : List String) (h : fsExists fs p = true) :
    fsExists (managerDownload fs lang f).2.1 p = true := by
  unfold managerDownload
  cases f.meta with
  | none => exact h
  | some m => exact fsExists_runItems f m (langPathOf lang) _ fs p h

/-- C9: `unloadGrammar()` mutates only the cached compiled-grammar slot:
name, config, wasm content, queries, and the entire extensions mapping
(hence every nested extension handle, including any grammar an extension
has itself loaded) are unchanged, the grammar slot becomes `null`, and the
return value is `true`. -/
theorem c9_unload_frame (l : Language) :
    (unloadGrammar l).1.name = l.name ∧
    (unloadGrammar l).1.config = l.config ∧
    (unloadGrammar l).1.wasm = l.wasm ∧
    (unloadGrammar l).1.queries = l.queries ∧
    (unloadGrammar l).1.extensions = l.extensions ∧
    (unloadGrammar l).1.grammar = none ∧
    (unloadGrammar l).2 = true := by
  cases l
  exact ⟨rfl, rfl, rfl, rfl, rfl, rfl, rfl⟩

/-- C6: `loadGrammar()` is idempotent — the first call invokes the engine
loader and caches the result, a second call returns the identical cached
grammar without invoking the loader; `unloadGrammar()` returns `true`
(also when nothing is loaded) and clears the cache; a subsequent
`loadGrammar()` reloads from the original, unchanged module source. -/
theorem c6_load_idempotent_unload_reload (loader : JSVal → Except String Grammar)
    (l : Language) (g : Grammar) (h1 : l.grammar = none)
    (h2 : jsFalsy l.wasm = false) (h3 : loader (toArrayBuffer l.wasm) = .ok g) :
    loadGrammar loader l = (.ok g, l.setGrammar (some g), true) ∧
    loadGrammar loader (l.setGrammar (some g)) = (.ok g, l.setGrammar (some g), false) ∧
    unloadGrammar l = (l, true) ∧
    unloadGrammar (l.setGrammar (some g)) = (l.setGrammar none, true) ∧
    (l.setGrammar none).grammar = none ∧
    (l.setGrammar none).wasm = l.wasm ∧
    loadGrammar loader (l.setGrammar none) = (.ok g, l.setGrammar (some g), true) := by
  obtain ⟨n, c, w, q, gr, ex⟩ := l
  simp only [Language.grammar] at h1
  subst h1
  simp only [Language.wasm] at h2 h3
  simp [loadGrammar, unloadGrammar, Language.setGrammar, Language.grammar,
    Language.wasm, Language.name, h2, h3]

/-- C3: extension resolution.  For the package
`{tree-sitter-foo.wasm, tree-sitter-foo-bar.wasm}` with declared name `foo`
and `isExtension = false`, the handle's module slot holds
`tree-sitter-foo.wasm`'s content directly and its extensions mapping holds
exactly one entry keyed `foo-bar`, itself a handle whose extensions field is
the `null` sentinel.  In general the derived name of a module strips a
literal `tree-sitter-` prefix and the `.wasm` extension, the first module
whose derived name equals the declared name becomes the primary module slot,
and every extension entry is a depth-1 handle that never scans further. -/
theorem c3_extension_resolution (t1 t2 : String) (cfg : JSVal)
    (qs : List (String × String)) :
    (Language.make "foo" cfg
      (.obj [("tree-sitter-foo.wasm", .arrayBuffer t1),
        ("tree-sitter-foo-bar.wasm", .arrayBuffer t2)]) qs false).wasm
      = .arrayBuffer t1 ∧
    (Language.make "foo" cfg
      (.obj [("tree-sitter-foo.wasm", .arrayBuffer t1),
        ("tree-sitter-foo-bar.wasm", .arrayBuffer t2)]) qs false).extensions
      = some [("foo-bar", .mk "foo-bar" cfg (.arrayBuffer t2) qs none none)] ∧
    (Language.mk "foo-bar" cfg (.arrayBuffer t2) qs none none).extensions = none ∧
    (∀ s, getNameFromFilename ("tree-sitter-" ++ s ++ ".wasm") = s) ∧
    (∀ name cfg2 entries qs2 fn v,
      entries.find? (fun e => getNameFromFilename e.1 = name) = some (fn, v) →
      (Language.make name cfg2 (.obj entries) qs2 false).wasm = toArrayBuffer v) ∧
    (∀ name cfg2 entries qs2 exts k e,
      (Language.make name cfg2 (.obj entries) qs2 false).extensions = some exts →
      (k, e) ∈ exts → e.extensions = none) := by
  refine ⟨rfl, rfl, rfl, getName_canonical, ?_, ?_⟩
  · intro name cfg2 entries qs2 fn v h
    exact make_wasm_slot name cfg2 entries qs2 fn v h
  · intro name cfg2 entries qs2 exts k e h hke
    exact make_extensions_are_leaves name cfg2 entries qs2 exts h k e hke

/-- Witness for C3 at concrete inputs: the primary-slot equation, the
derived-name equation, and the general wasm-slot property instantiated on a
one-module package, with the `find?` hypothesis discharged by evaluation. -/
theorem c3_witness :
    (Language.make "foo" JSVal.null
      (.obj [("tree-sitter-foo.wasm", .arrayBuffer "b1"),
        ("tree-sitter-foo-bar.wasm", .arrayBuffer "b2")]) [] false).wasm
      = .arrayBuffer "b1" ∧
    getNameFromFilename ("tree-sitter-" ++ "go" ++ ".wasm") = "go" ∧
    (Language.make "go" JSVal.null
      (.obj [("tree-sitter-go.wasm", JSVal.arrayBuffer "g")]) [] false).wasm
      = toArrayBuffer (JSVal.arrayBuffer "g") := by
  refine ⟨(c3_extension_resolution "b1" "b2" .null []).1,
    (c3_extension_resolution "b1" "b2" .null []).2.2.2.1 "go",
    (c3_extension_resolution "b1" "b2" .null []).2.2.2.2.1 "go" .null
      [("tree-sitter-go.wasm", .arrayBuffer "g")] [] "tree-sitter-go.wasm"
      (.arrayBuffer "g") rfl⟩

theorem segPre_refl (p : List String) : segPre p p = true := by
  induction p with
  | nil => rfl
  | cons a p ih => simp [segPre, ih]

theorem mem_deleteTree {fs : FS} {p : List String} {q : List String × FSEntry}
    (h : q ∈ deleteTree fs p) : segPre p q.1 = false := by
  have h2 := (List.mem_filter.mp h).2
  simp only [decide_eq_true_eq] at h2
  exact Bool.not_eq_true _ ▸ (by simpa using h2)

theorem fsExists_deleteTree (fs : FS) (p : List String) :
    fsExists (deleteTree fs p) p = false := by
  cases hq : (deleteTree fs p).any (fun q => q.1 = p) with
  | false => exact hq
  | true =>
    exfalso
    obtain ⟨q, hmem, hq1⟩ := List.any_eq_true.mp hq
    rw [decide_eq_true_eq] at hq1
    have h2 := mem_deleteTree hmem
    rw [hq1, segPre_refl] at h2
    cases h2

theorem dropPre_some : ∀ (p q r : List String), dropPre p q = some r → q = p ++ r
  | [], q, r, h => by simpa [dropPre] using h
  | a :: p, [], r, h => by simp [dropPre] at h
  | a :: p, b :: q, r, h => by
    simp only [dropPre] at h
    split at h
    · rename_i hab
      have := dropPre_some p q r h
      simp [← hab, this]
    · cases h

theorem mem_lsDir {fs : FS} {p : List String} {fl : DirEnt}
    (h : fl ∈ lsDir fs p) :
    fl.url = p ++ [fl.name] ∧ fsExists fs fl.url = true := by
  obtain ⟨q, hq, heq⟩ := List.mem_filterMap.mp h
  cases hdp : dropPre p q.1 with
  | none => rw [hdp] at heq; cases heq
  | some r =>
    rw [hdp] at heq
    match r, heq with
    | [n], heq =>
      have hfl : fl = ⟨n, q.1, q.2.isDir⟩ := (Option.some.inj heq).symm
      have hq1 := dropPre_some p q.1 [n] hdp
      subst hfl
      refine ⟨hq1, ?_⟩
      exact List.any_eq_true.mpr ⟨q, hq, by simp⟩

/-- Witness for C6 at a concrete handle and loader. -/
theorem c6_witness :
    loadGrammar (fun v => .ok (.loaded v))
      (.mk "json" .null (.arrayBuffer "w") [] none (some [])) =
      (.ok (.loaded (.arrayBuffer "w")),
        .mk "json" .null (.arrayBuffer "w") [] (some (.loaded (.arrayBuffer "w")))
          (some []), true) :=
  (c6_load_idempotent_unload_reload (fun v => .ok (.loaded v))
    (.mk "json" .null (.arrayBuffer "w") [] none (some []))
    (.loaded (.arrayBuffer "w")) rfl rfl rfl).1

/-- C10: the public `parse` destructures its third parameter with no default
object; calling it without an options argument throws a `TypeError` at
invocation — before the initialization wait, any parser lookup, or any
parsing happens (empty event trace, parser cache untouched) — while passing
an options object (even an empty one) gets past destructuring into the body
(the trace then starts with the initialization wait). -/
theorem c10_parse_requires_options (langs : LangCache)
    (parsers : List (String × Parser)) (fs : FS) (lang code : String) :
    apiParse langs parsers fs lang code none =
      (.error (.typeError "Cannot destructure property forceReload of undefined"),
        parsers, []) ∧
    (apiParse langs parsers fs lang code (some ⟨none⟩)).2.2.head? =
      some .initWait := by
  refine ⟨rfl, ?_⟩
  have hred : apiParse langs parsers fs lang code (some ⟨none⟩) =
      (match parsers.find? (fun e => e.1 = lang) with
       | some e =>
         match e.2 with
         | .mk g => (.ok (.parsed g code), parsers, [.initWait, .cachedParse])
       | none =>
         match (createParser langs fs lang).1 with
         | .error e => (.error e, parsers, [.initWait, .freshParse])
         | .ok p =>
           let parsers2 := if parsers.any (fun e => e.1 = lang) then
               parsers.map (fun e => if e.1 = lang then (lang, p) else e)
             else parsers ++ [(lang, p)]
           match p with
           | .mk g => (.ok (.parsed g code), parsers2, [.initWait, .freshParse])) :=
    rfl
  rw [hred]
  cases parsers.find? (fun e => e.1 = lang) with
  | some e =>
    rcases e with ⟨k, pg⟩
    cases pg
    rfl
  | none =>
    cases (createParser langs fs lang).1 with
    | error e => rfl
    | ok p => cases p; rfl

/-- C2 (amended): on an already-installed identifier the manager's
`installLanguage` returns `false` with no side effects — the filesystem is
unchanged and no network request is issued — but the facade's
`installLanguage` wrapper then returns `true` (it returns `true` whenever
the manager call does not throw). -/
theorem c2_installed_noop (fs : FS) (lang : String) (f : Faults)
    (h : fsExists fs (langPathOf lang) = true) :
    installLanguage fs lang f = (.ok false, fs, []) ∧
    apiInstallLanguage fs lang f = (.ok true, fs, []) := by
  have h1 : installLanguage fs lang f = (.ok false, fs, []) := by
    unfold installLanguage
    rw [if_pos h]
  exact ⟨h1, by unfold apiInstallLanguage; rw [h1]⟩

/-- Counterexample for C2 as stated: with the package directory for `json`
present, the facade's `installLanguage` returns `true`, not `false`. -/
theorem c2_counterexample :
    apiInstallLanguage [(["tree-sitter"], .dir), (["tree-sitter", "json"], .dir)]
        "json" ⟨none, []⟩ =
      (.ok true, [(["tree-sitter"], .dir), (["tree-sitter", "json"], .dir)], []) ∧
    (Except.ok true : Except String Bool) ≠ .ok false := by
  exact ⟨rfl, by simp⟩

/-- Witness for C2 (amended) at a concrete pre-installed state. -/
theorem c2_witness :
    installLanguage [(["tree-sitter"], .dir), (["tree-sitter", "go"], .dir)]
        "go" ⟨some ⟨"p", "1.0.0", []⟩, []⟩ =
      (.ok false, [(["tree-sitter"], .dir), (["tree-sitter", "go"], .dir)], []) ∧
    apiInstallLanguage [(["tree-sitter"], .dir), (["tree-sitter", "go"], .dir)]
        "go" ⟨some ⟨"p", "1.0.0", []⟩, []⟩ =
      (.ok true, [(["tree-sitter"], .dir), (["tree-sitter", "go"], .dir)], []) :=
  c2_installed_noop _ "go" _ rfl

/-- C7 (amended): `uninstallLanguage` returns `false` when the package
directory is absent and deletes the whole directory returning `true` when
present; but when the deletion itself fails, the manager's catch block
raises a `ReferenceError` (the original failure is lost) and the facade
catches every error and returns `false` — the failure does not reach the
caller as an error. -/
theorem c7_uninstall (langs : LangCache) (fs : FS) (lang : String) :
    (fsExists fs (langPathOf lang) = false →
      uninstallLanguage fs lang false = (.ok false, fs) ∧
      uninstallLanguage fs lang true = (.ok false, fs)) ∧
    (fsExists fs (langPathOf lang) = true →
      uninstallLanguage fs lang false = (.ok true, deleteTree fs (langPathOf lang)) ∧
      isLanguageAvailable (deleteTree fs (langPathOf lang)) lang = false) ∧
    (fsExists fs (langPathOf lang) = true →
      uninstallLanguage fs lang true = (.error .referenceError, fs) ∧
      (apiUninstallLanguage langs fs lang true).1 = .ok false) := by
  refine ⟨fun h => ?_, fun h => ?_, fun h => ?_⟩
  · constructor <;> (unfold uninstallLanguage; rw [if_pos (by simp [h])])
  · constructor
    · unfold uninstallLanguage
      rw [if_neg (by simp [h])]
      rfl
    · exact fsExists_deleteTree fs (langPathOf lang)
  · have h1 : uninstallLanguage fs lang true = (.error .referenceError, fs) := by
      unfold uninstallLanguage
      rw [if_neg (by simp [h])]
      rfl
    exact ⟨h1, by unfold apiUninstallLanguage; rw [h1]⟩

/-- Counterexample for C7 as stated: with the package directory present and
the deletion failing, the facade's `uninstallLanguage` resolves with
`false` instead of propagating an error. -/
theorem c7_counterexample :
    (apiUninstallLanguage [] [(["tree-sitter", "json"], FSEntry.dir)] "json"
        true).1 = .ok false ∧
    exceptIsError (apiUninstallLanguage []
        [(["tree-sitter", "json"], FSEntry.dir)] "json" true).1 = false ∧
    isLanguageAvailable [(["tree-sitter", "json"], FSEntry.dir)] "json" = true := by
  exact ⟨rfl, rfl, rfl⟩

/-- C1: installs are all-or-nothing.  Whenever `installLanguage` propagates
an error — under any fault injection on the manifest fetch or on any n-th
file download — the post-state has no package directory for the identifier:
`isLanguageAvailable` is false and no path at or below the package directory
remains on disk. -/
theorem c1_install_rollback (fs : FS) (lang : String) (f : Faults) (e : String)
    (fs2 : FS) (evs : List NetEvent)
    (h : installLanguage fs lang f = (.error e, fs2, evs)) :
    isLanguageAvailable fs2 lang = false ∧
    ∀ q ∈ fs2, segPre (langPathOf lang) q.1 = false := by
  unfold installLanguage at h
  by_cases h0 : fsExists fs (langPathOf lang) = true
  · rw [if_pos h0] at h
    simp at h
  · rw [if_neg h0] at h
    have hex : fsExists
        (managerDownload (createDirAt fs (langPathOf lang)) lang f).2.1
        (langPathOf lang) = true :=
      fsExists_managerDownload lang f _ _ (fsExists_createDirAt_self fs _)
    unfold installFinish at h
    cases hr : (managerDownload (createDirAt fs (langPathOf lang)) lang f).1 with
    | none =>
      rw [hr] at h
      simp at h
    | some err =>
      rw [hr] at h
      rw [if_pos hex] at h
      have hfs2 : deleteTree
          (managerDownload (createDirAt fs (langPathOf lang)) lang f).2.1
          (langPathOf lang) = fs2 :=
        congrArg (fun t => t.2.1) h
      constructor
      · unfold isLanguageAvailable
        rw [← hfs2]
        exact fsExists_deleteTree _ _
      · intro q hq
        rw [← hfs2] at hq
        exact mem_deleteTree hq

/-- Witness for C1: a concrete install of `json` whose second file download
(the wasm module) fails after the config document was already written; the
rollback leaves only the storage root. -/
theorem c1_witness :
    isLanguageAvailable [(["tree-sitter"], FSEntry.dir)] "json" = false :=
  (c1_install_rollback [(["tree-sitter"], FSEntry.dir)] "json"
    ⟨some ⟨"", "1.0.0",
      ["tree-sitter.json", "tree-sitter-json.wasm", "queries/highlights.scm"]⟩,
      ["tree-sitter-json.wasm"]⟩
    "Failed to download tree-sitter-json.wasm"
    [(["tree-sitter"], FSEntry.dir)]
    [.metaFetch "json", .fileFetch "tree-sitter.json",
      .fileFetch "tree-sitter-json.wasm"]
    rfl).1

/-- C5 (amended): `isLanguageAvailable(id)` is a bare directory-existence
check; the configuration document is not consulted.  A package directory
that exists but lacks `tree-sitter.json` still reports available — the
missing config only surfaces later, as a `getLanguage` error. -/
theorem c5_available_is_existence (fs : FS) (lang : String)
    (h1 : fsExists fs (langPathOf lang) = true)
    (h2 : fsExists fs (langPathOf lang ++ ["tree-sitter.json"]) = false) :
    isLanguageAvailable fs lang = true ∧
    managerGetLanguage fs lang = .error ("Failed to load language " ++ lang ++
      ": Missing tree-sitter.json for language " ++ lang) := by
  refine ⟨h1, ?_⟩
  have hfind : (lsDir fs (langPathOf lang)).find?
      (fun fl => fl.name = "tree-sitter.json") = none := by
    rw [List.find?_eq_none]
    intro fl hfl
    simp only [decide_eq_true_eq]
    intro hname
    obtain ⟨hurl, hex⟩ := mem_lsDir hfl
    rw [hname] at hurl
    rw [hurl] at hex
    rw [hex] at h2
    cases h2
  unfold managerGetLanguage
  rw [if_neg (by simp [h1])]
  simp only [hfind]

/-- Counterexample for C5 as stated: a package directory that exists but has
no configuration document inside; `isLanguageAvailable` nonetheless returns
`true`, refuting the claimed equivalence. -/
theorem c5_counterexample :
    ¬ (isLanguageAvailable [(["tree-sitter", "json"], FSEntry.dir)] "json" = true ↔
      (fsExists [(["tree-sitter", "json"], FSEntry.dir)] (langPathOf "json") = true ∧
       fsExists [(["tree-sitter", "json"], FSEntry.dir)]
         (langPathOf "json" ++ ["tree-sitter.json"]) = true)) := by
  decide

/-- Witness for C5 (amended) at a concrete config-less package directory. -/
theorem c5_witness :
    isLanguageAvailable [(["tree-sitter", "rust"], FSEntry.dir)] "rust" = true ∧
    managerGetLanguage [(["tree-sitter", "rust"], FSEntry.dir)] "rust" =
      .error ("Failed to load language " ++ "rust" ++
        ": Missing tree-sitter.json for language " ++ "rust") :=
  c5_available_is_existence [(["tree-sitter", "rust"], FSEntry.dir)] "rust" rfl rfl

/-- C4 (amended): `createParser(id)` never loads a grammar itself.  When the
resolved handle's grammar slot is not already loaded it throws
("grammar not loaded"); only when the grammar was loaded beforehand does it
bind one fresh parser instance to that grammar and return it. -/
theorem c4_createParser_requires_loaded (langs : LangCache) (fs : FS)
    (lang : String) (l : Language) (c2 : LangCache)
    (h : apiGetLanguage langs fs lang false = (.ok (some l), c2)) :
    (l.grammar = none →
      createParser langs fs lang =
        (.error (.error ("Cannot create parser: Language " ++ lang ++
          " not available or grammar not loaded")), c2)) ∧
    (∀ g, l.grammar = some g →
      createParser langs fs lang = (.ok (.mk g), c2)) := by
  constructor
  · intro hg
    unfold createParser
    rw [h]
    simp [hg]
  · intro g hg
    unfold createParser
    rw [h]
    simp [hg]

/-- Counterexample for C4 as stated: a fully installed, constructible
package for `json` (config plus a primary wasm module) whose grammar has
never been loaded; `createParser` throws instead of loading the grammar. -/
theorem c4_counterexample :
    isLanguageAvailable
      [(["tree-sitter"], .dir), (["tree-sitter", "json"], .dir),
        (["tree-sitter", "json", "tree-sitter.json"], .file "cfg"),
        (["tree-sitter", "json", "tree-sitter-json.wasm"], .file "bytes")]
      "json" = true ∧
    isOkSomeLang (managerGetLanguage
      [(["tree-sitter"], .dir), (["tree-sitter", "json"], .dir),
        (["tree-sitter", "json", "tree-sitter.json"], .file "cfg"),
        (["tree-sitter", "json", "tree-sitter-json.wasm"], .file "bytes")]
      "json") = true ∧
    (createParser []
      [(["tree-sitter"], .dir), (["tree-sitter", "json"], .dir),
        (["tree-sitter", "json", "tree-sitter.json"], .file "cfg"),
        (["tree-sitter", "json", "tree-sitter-json.wasm"], .file "bytes")]
      "json").1 =
      .error (.error
        "Cannot create parser: Language json not available or grammar not loaded") := by
  exact ⟨rfl, rfl, rfl⟩

/-- Witness for C4 (amended): a cached handle with a loaded grammar yields a
fresh parser bound to that grammar. -/
theorem c4_witness :
    createParser
      [("json", .mk "json" .null (.arrayBuffer "w") []
        (some (.loaded (.arrayBuffer "w"))) (some []))] [] "json" =
      (.ok (.mk (.loaded (.arrayBuffer "w"))),
        [("json", .mk "json" .null (.arrayBuffer "w") []
          (some (.loaded (.arrayBuffer "w"))) (some []))]) :=
  (c4_createParser_requires_loaded
    [("json", .mk "json" .null (.arrayBuffer "w") []
      (some (.loaded (.arrayBuffer "w"))) (some []))] [] "json"
    (.mk "json" .null (.arrayBuffer "w") []
      (some (.loaded (.arrayBuffer "w"))) (some []))
    [("json", .mk "json" .null (.arrayBuffer "w") []
      (some (.loaded (.arrayBuffer "w"))) (some []))] rfl).2
    (.loaded (.arrayBuffer "w")) rfl

/-- Witness for C7 (amended) at concrete states: both the absent-directory
branch and the failing-deletion branch. -/
theorem c7_witness :
    uninstallLanguage [(["tree-sitter", "go"], FSEntry.dir)] "go" true =
      (.error .referenceError, [(["tree-sitter", "go"], FSEntry.dir)]) ∧
    (apiUninstallLanguage [] [(["tree-sitter", "go"], FSEntry.dir)] "go" true).1 =
      .ok false ∧
    uninstallLanguage [] "go" false = (.ok false, []) :=
  ⟨((c7_uninstall [] [(["tree-sitter", "go"], FSEntry.dir)] "go").2.2 rfl).1,
    ((c7_uninstall [] [(["tree-sitter", "go"], FSEntry.dir)] "go").2.2 rfl).2,
    ((c7_uninstall [] [] "go").1 rfl).1⟩

/-- C8: Pattern Matcher semantics on the installer's three pattern shapes:
a directory pattern is a prefix test at any depth, a `*` wildcard does not
cross a path-segment boundary, and an exact pattern means path equality. -/
theorem c8_pattern_matcher_shapes :
    patMatches "queries/highlights.scm" "queries/" = true ∧
    patMatches "a/b.wasm" "*.wasm" = false ∧
    patMatches "b.wasm" "*.wasm" = true ∧
    patMatches "tree-sitter.json" "tree-sitter.json" = true ∧
    patMatches "tree-sitter.json2" "tree-sitter.json" = false := by
  decide
